import Mathlib

/-!
Verification of the nested-star-processors lake-sink pipeline.

This file gives a shallow embedding of the repository's core:

* `src/lakesink.rs` — the batching sink (`store_batch`, `start_lakesink`):
  modelled as a step function over an explicit schedule of loop events
  (the resolution order of the `tokio::select!` race between
  `rec_stream.consume()` and `cancel_token.cancelled()`), with the outcomes
  of the external `lake.store` and `rec_stream.commit_last_consume` calls
  supplied by an environment oracle, and every external call logged in a
  trace.

* `src/record_stream/kafka.rs` — the Kafka-backed record stream
  (`KafkaRecordStream::new`, `produce`, `consume`, `commit_last_consume`):
  modelled as pure functions over an explicit per-partition offset tracker
  (the `tpl : Mutex<TopicPartitionList>` field); the `Mutex` scoped lock is
  rendered as exclusive state passing, and a panic (`expect` on a disabled
  capability handle) is rendered as `Option.none`.
-/

namespace NSP

/-! ## Lake sink (`src/lakesink.rs`) -/

/-- One external call made by the sink, as logged in the execution trace.
`store b blob ok` records a `lake.store(&contents)` call where `b` is the
batch slice passed to `store_batch`, `blob` the joined contents and `ok`
the outcome. `commit covered stored ok` records a
`rec_stream.commit_last_consume()` call; `covered` snapshots all records
successfully consumed so far (whose offsets the tracker, and hence this
commit, covers) and `stored` snapshots all records that are part of a
successful `store` call so far. -/
inductive LakeCall where
  | store (b : List String) (blob : String) (ok : Bool)
  | commit (covered : List String) (stored : List String) (ok : Bool)
  deriving DecidableEq, Repr

/-- State of one sink instance: the in-memory `batch` vector, bookkeeping
snapshots (`consumed` = records returned by successful `consume` calls in
order, `stored` = concatenation of successfully stored batches), the call
trace, call counters used to index the environment oracle, and the two
metric counters (`record_received` / `records_flushed`). -/
structure SinkState where
  batch : List String
  consumed : List String
  stored : List String
  trace : List LakeCall
  nStores : Nat
  nCommits : Nat
  received : Nat
  flushed : Nat
  deriving DecidableEq, Repr

/-- Outcomes of the external collaborators: `storeOk n` is the result of
the `n`-th `lake.store` call, `commitOk n` of the `n`-th
`commit_last_consume` call. -/
structure LakeEnv where
  storeOk : Nat → Bool
  commitOk : Nat → Bool

/-- Embedding of `store_batch` (src/lakesink.rs:20-34): join the batch with
a newline separator, `store` it, and only if that succeeded,
`commit_last_consume`; on both successes bump the `records_flushed`
metric. Any failure returns `false` (the Rust `?` operator). The caller's
batch slice is left untouched. -/
def store_batch (env : LakeEnv) (s : SinkState) : SinkState × Bool :=
  let contents := String.intercalate "\n" s.batch
  if env.storeOk s.nStores then
    let s1 : SinkState :=
      { s with nStores := s.nStores + 1,
               stored := s.stored ++ s.batch,
               trace := s.trace ++ [LakeCall.store s.batch contents true] }
    let cOk := env.commitOk s1.nCommits
    let s2 : SinkState :=
      { s1 with nCommits := s1.nCommits + 1,
                trace := s1.trace ++ [LakeCall.commit s1.consumed s1.stored cOk] }
    if cOk then ({ s2 with flushed := s2.flushed + 1 }, true) else (s2, false)
  else
    ({ s with nStores := s.nStores + 1,
              trace := s.trace ++ [LakeCall.store s.batch contents false] }, false)

instance {α β : Type} [DecidableEq α] [DecidableEq β] :
    DecidableEq (Except α β) := fun a b =>
  match a, b with
  | Except.ok x, Except.ok y =>
    if h : x = y then isTrue (by rw [h]) else isFalse (by simp [h])
  | Except.error x, Except.error y =>
    if h : x = y then isTrue (by rw [h]) else isFalse (by simp [h])
  | Except.ok _, Except.error _ => isFalse (by simp)
  | Except.error _, Except.ok _ => isFalse (by simp)

/-- One resolution of the `tokio::select!` race in `start_lakesink`
(src/lakesink.rs:49-66): either the `consume()` future completed (with a
record or an error), or the cancellation future completed. -/
inductive LoopEvent where
  | recv (res : Except Unit String)
  | cancel
  deriving DecidableEq, Repr

/-- Control outcome of the sink loop: still looping, returned `Ok(())`
after the cancellation `break`, or terminated by propagating an error. -/
inductive SinkStatus where
  | running
  | done
  | errored
  deriving DecidableEq, Repr

/-- The threshold check after a push (src/lakesink.rs:54-57): when the
batch length reached `batchSize`, store the batch and, on success, clear
it (`batch.clear()`); a `store_batch` failure propagates (`?`). -/
def flushIfFull (env : LakeEnv) (batchSize : Nat) (s : SinkState) :
    SinkState × SinkStatus :=
  if s.batch.length ≥ batchSize then
    let r := store_batch env s
    if r.2 then ({ r.1 with batch := [] }, SinkStatus.running)
    else (r.1, SinkStatus.errored)
  else (s, SinkStatus.running)

/-- The cancellation arm (src/lakesink.rs:59-65): when the batch is
non-empty it is drained with a final `store_batch` (a failure propagates,
`?`), then the loop breaks; the local batch vector is not cleared, the
function simply returns. -/
def drainOnCancel (env : LakeEnv) (s : SinkState) : SinkState × SinkStatus :=
  if s.batch.isEmpty then (s, SinkStatus.done)
  else
    let r := store_batch env s
    if r.2 then (r.1, SinkStatus.done)
    else (r.1, SinkStatus.errored)

/-- The push performed for every successfully received record
(src/lakesink.rs:52-53): bump the `record_received` metric, note the
record as consumed and append it to the batch. -/
def pushRecord (s : SinkState) (record : String) : SinkState :=
  { s with received := s.received + 1,
           consumed := s.consumed ++ [record],
           batch := s.batch ++ [record] }

/-- Embedding of one iteration of the `start_lakesink` loop
(src/lakesink.rs:48-67). A received record is pushed onto the batch (after
the `record_received` metric), then the threshold check runs. A consume
error propagates. Cancellation triggers the drain arm. -/
def sinkStep (env : LakeEnv) (batchSize : Nat) (s : SinkState) :
    LoopEvent → SinkState × SinkStatus
  | LoopEvent.recv (Except.error _) => (s, SinkStatus.errored)
  | LoopEvent.recv (Except.ok record) =>
    flushIfFull env batchSize (pushRecord s record)
  | LoopEvent.cancel => drainOnCancel env s

/-- Run the sink loop over a schedule of select resolutions, stopping as
soon as the loop breaks or an error propagates (after which the Rust
function has returned and processes no further events). -/
def sinkRun (env : LakeEnv) (batchSize : Nat) :
    List LoopEvent → SinkState → SinkState × SinkStatus
  | [], s => (s, SinkStatus.running)
  | e :: rest, s =>
    let r := sinkStep env batchSize s e
    if r.2 = SinkStatus.running then sinkRun env batchSize rest r.1 else r

/-- The state at sink start: `Vec::with_capacity(batch_size)` is empty, no
calls made, metrics at zero. -/
def initSinkState : SinkState :=
  { batch := [], consumed := [], stored := [], trace := [],
    nStores := 0, nCommits := 0, received := 0, flushed := 0 }

/-- A full execution of `start_lakesink`'s loop from the initial state. -/
def runSink (env : LakeEnv) (batchSize : Nat) (events : List LoopEvent) :
    SinkState × SinkStatus :=
  sinkRun env batchSize events initSinkState

/-- Environment in which every external call succeeds. -/
def envAllOk : LakeEnv := { storeOk := fun _ => true, commitOk := fun _ => true }

/-- Environment in which every `store` call fails. -/
def envStoreFail : LakeEnv := { storeOk := fun _ => false, commitOk := fun _ => true }

/-- Environment in which `store` succeeds but every commit fails. -/
def envCommitFail : LakeEnv := { storeOk := fun _ => true, commitOk := fun _ => false }

/-- A sink state holding the single buffered record "d". -/
def singleBatchState : SinkState :=
  { initSinkState with batch := ["d"], consumed := ["d"] }

/-- A sink state holding the single buffered record "a". -/
def aBatchState : SinkState :=
  { initSinkState with batch := ["a"], consumed := ["a"] }

/-- A sink state holding the full batch ["a", "b", "c"]. -/
def fullBatchState : SinkState :=
  { initSinkState with batch := ["a", "b", "c"], consumed := ["a", "b", "c"] }

example :
    (runSink envAllOk 3
      [LoopEvent.recv (Except.ok "a"), LoopEvent.recv (Except.ok "b"),
       LoopEvent.recv (Except.ok "c")]).1.trace =
      [LakeCall.store ["a", "b", "c"] "a\nb\nc" true,
       LakeCall.commit ["a", "b", "c"] ["a", "b", "c"] true] := by decide

example :
    (runSink envAllOk 3
      [LoopEvent.recv (Except.ok "a"), LoopEvent.recv (Except.ok "b"),
       LoopEvent.recv (Except.ok "c"), LoopEvent.recv (Except.ok "d"),
       LoopEvent.cancel]).2 = SinkStatus.done := by decide

example :
    (runSink envStoreFail 2
      [LoopEvent.recv (Except.ok "a"), LoopEvent.recv (Except.ok "b")]).2 =
      SinkStatus.errored := by decide

/-! ## Batch size configuration (`src/lakesink.rs:40-42`) -/

/-- Embedding of Rust's `usize::from_str`: an optional leading `+`
followed by one or more ASCII digits, rejecting anything else and values
that overflow the 64-bit `usize`. `none` is the `Err` case. -/
def parseUsize (s : String) : Option Nat :=
  let ds := match s.data with
    | '+' :: rest => rest
    | l => l
  if ds.isEmpty then none
  else if ds.all Char.isDigit then
    let v := ds.foldl (fun a c => a * 10 + (c.toNat - 48)) 0
    if v < 2 ^ 64 then some v else none
  else none

/-- Embedding of the batch-size startup read (src/lakesink.rs:40-42):
the `LAKE_SINK_BATCH_SIZE` environment value (or the default string
"1000" when unset) parsed as `usize`; `none` models the
`panic!("LAKE_SINK_BATCH_SIZE must be a positive integer")` that aborts
startup before the stream, lake or batch are created. -/
def batchSizeConfig (envVal : Option String) : Option Nat :=
  parseUsize (envVal.getD "1000")

example : batchSizeConfig none = some 1000 := by decide
example : batchSizeConfig (some "5") = some 5 := by decide
example : batchSizeConfig (some "12x") = none := by decide
example : batchSizeConfig (some "-1") = none := by decide
example : batchSizeConfig (some "0") = some 0 := by decide

/-! ## Kafka record stream (`src/record_stream/kafka.rs`) -/

/-- A partition key of the tracked offset list: (topic, partition).
The Rust partition is an `i32` and the offset an `i64`; both are modelled
as `Int`. -/
abbrev PartitionKey := String × Int

/-- The `TopicPartitionList` held in the `tpl` mutex: an association list
from (topic, partition) to the offset stored for it. -/
abbrev Tpl := List (PartitionKey × Int)

/-- Embedding of `tpl.add_partition_offset(topic, partition, offset)`
(rdkafka): set the offset of the (topic, partition) entry, replacing any
prior entry for that key, or add a fresh entry when none exists. (The
rdkafka call only fails for invalid offset variants; `Offset::Offset(_)`
as passed by `consume` is always valid, so it is modelled as total.) -/
def addPartitionOffset (tpl : Tpl) (t : String) (p : Int) (off : Int) : Tpl :=
  if tpl.any (fun e => e.1 = (t, p)) then
    tpl.map (fun e => if e.1 = (t, p) then (e.1, off) else e)
  else
    tpl ++ [((t, p), off)]

/-- Look up the offset recorded for a partition key. -/
def tplLookup (k : PartitionKey) : Tpl → Option Int
  | [] => none
  | e :: rest => if e.1 = k then some e.2 else tplLookup k rest

/-- An incoming Kafka message as seen by `consume`: its topic, partition
and offset, and the `payload_view::<str>()` result — `none` when the
message has no payload, `some (Except.error ())` when the payload bytes
are not valid text, `some (Except.ok s)` for a decoded payload. -/
structure KafkaMessageM where
  topic : String
  partition : Int
  offset : Int
  payload : Option (Except Unit String)
  deriving DecidableEq, Repr

/-- The `KafkaRecordStream` struct (src/record_stream/kafka.rs:41-46):
optional producer and consumer handles (the handles themselves are
opaque, so they are modelled as `Option Unit`), the offset tracker and
the topic this stream produces to / consumes from. -/
structure KafkaRecordStreamM where
  producer : Option Unit
  consumer : Option Unit
  tpl : Tpl
  topic : String
  deriving DecidableEq, Repr

/-- Embedding of `KafkaRecordStream::new(enable_producer, enable_consumer,
use_output_topic)` (src/record_stream/kafka.rs:49-91). The topic is the
`KAFKA_OUTPUT_TOPIC` / `KAFKA_ENCRYPTED_TOPIC` environment value
(passed in as `envOutTopic` / `envEncTopic`) with its default; a handle
is created exactly when the corresponding capability flag is set, and the
tracker starts out as the fresh empty `TopicPartitionList`. (Broker
configuration and the client/subscribe calls, which can only fail from
the environment, are abstracted.) -/
def KafkaRecordStreamNew (envOutTopic envEncTopic : Option String)
    (enable_producer enable_consumer use_output_topic : Bool) :
    KafkaRecordStreamM :=
  let topic :=
    if use_output_topic then envOutTopic.getD "p3a-star-out"
    else envEncTopic.getD "p3a-star-enc"
  { producer := if enable_producer then some () else none,
    consumer := if enable_consumer then some () else none,
    tpl := [],
    topic := topic }

/-- Failure modes of `consume`, after the `RecordStreamError` messages it
builds: a receive error from the backend or a payload that is not
decodable as text. -/
inductive ConsumeError where
  | recvError
  | deserializeError
  deriving DecidableEq, Repr

/-- Embedding of `consume` (src/record_stream/kafka.rs:116-147). The
outer `Option` is the `expect("Kafka consumer not enabled")`: `none`
means the task panics. `recvRes` is the outcome of `consumer.recv()`.
On a received message the payload is decoded first (absent payload
becomes `""`, undecodable payload is a terminal `DeserializeError` and
leaves the tracker untouched); then, under the `tpl` lock,
(topic, partition, offset + 1) is recorded, replacing any prior entry for
that partition; finally the payload text is returned. -/
def consume (s : KafkaRecordStreamM) (recvRes : Except Unit KafkaMessageM) :
    Option (Except ConsumeError (KafkaRecordStreamM × String)) :=
  match s.consumer with
  | none => none
  | some _ => some <|
    match recvRes with
    | Except.error _ => Except.error ConsumeError.recvError
    | Except.ok msg =>
      match msg.payload with
      | some (Except.error _) => Except.error ConsumeError.deserializeError
      | some (Except.ok payload) =>
        Except.ok
          ({ s with tpl := addPartitionOffset s.tpl msg.topic msg.partition
                             (msg.offset + 1) }, payload)
      | none =>
        Except.ok
          ({ s with tpl := addPartitionOffset s.tpl msg.topic msg.partition
                             (msg.offset + 1) }, "")

/-- Embedding of `commit_last_consume` (src/record_stream/kafka.rs:149-157).
The outer `Option` is again the consumer-capability `expect`. Under the
`tpl` lock the whole tracked list is submitted to `consumer.commit`;
`backendOk` is that call's outcome. The returned stream is the input
stream: the function holds `&self` and only reads the tracker. The middle
component is the `TopicPartitionList` submitted to the backend. -/
def commit_last_consume (s : KafkaRecordStreamM) (backendOk : Bool) :
    Option (KafkaRecordStreamM × Tpl × Except Unit Unit) :=
  match s.consumer with
  | none => none
  | some _ =>
    some (s, s.tpl, if backendOk then Except.ok () else Except.error ())

/-- Embedding of `produce` (src/record_stream/kafka.rs:106-114): `none`
is the `expect("Kafka producer not enabled")` panic; otherwise the
backend send outcome `sendOk` is mapped to `Ok(())` / a `Send error`. -/
def produce (s : KafkaRecordStreamM) (sendOk : Bool) :
    Option (Except Unit Unit) :=
  match s.producer with
  | none => none
  | some _ => some (if sendOk then Except.ok () else Except.error ())

/-- Successive `consume` calls over a list of backend receive results,
returning the final stream state and the list of tracker writes
((topic, partition), offset + 1) in the order they were performed.
A failed consume leaves the stream unchanged and writes nothing. -/
def consumeRun (s : KafkaRecordStreamM) :
    List (Except Unit KafkaMessageM) → KafkaRecordStreamM × List (PartitionKey × Int)
  | [] => (s, [])
  | m :: rest =>
    match consume s m with
    | some (Except.ok (s1, _)) =>
      let w : List (PartitionKey × Int) :=
        match m with
        | Except.ok msg => [((msg.topic, msg.partition), msg.offset + 1)]
        | Except.error _ => []
      let r := consumeRun s1 rest
      (r.1, w ++ r.2)
    | _ => consumeRun s rest

/-- The offsets, in delivery order, of the messages the backend delivers
for partition key `k` in a receive-result schedule. -/
def deliveredOffsets (k : PartitionKey) (ms : List (Except Unit KafkaMessageM)) :
    List Int :=
  ms.filterMap fun m =>
    match m with
    | Except.ok msg => if (msg.topic, msg.partition) = k then some msg.offset else none
    | Except.error _ => none

/-- The offset values successively recorded in the tracker for partition
key `k` over a run of `consume` calls. -/
def recordedOffsets (s : KafkaRecordStreamM) (k : PartitionKey)
    (ms : List (Except Unit KafkaMessageM)) : List Int :=
  ((consumeRun s ms).2.filter (fun w => w.1 = k)).map (·.2)

/-- The Kafka stream as constructed by `start_lakesink`
(src/lakesink.rs:44): consumer-only, output topic, default topics. -/
def lakesinkStream : KafkaRecordStreamM :=
  KafkaRecordStreamNew none none false true true

/-- A demo message with decodable payload "r". -/
def msgText : KafkaMessageM :=
  { topic := "p3a-star-out", partition := 0, offset := 41,
    payload := some (Except.ok "r") }

/-- A demo message on the same partition as `msgText`, later offset. -/
def msgTextLater : KafkaMessageM :=
  { topic := "p3a-star-out", partition := 0, offset := 50,
    payload := some (Except.ok "s") }

/-- A demo message whose payload bytes cannot be decoded as text. -/
def msgBadPayload : KafkaMessageM :=
  { topic := "p3a-star-out", partition := 0, offset := 43,
    payload := some (Except.error ()) }

example :
    consume lakesinkStream
      (Except.ok { topic := "p3a-star-out", partition := 0, offset := 41,
                   payload := some (Except.ok "r") }) =
      some (Except.ok
        ({ lakesinkStream with tpl := [(("p3a-star-out", 0), 42)] }, "r")) := by
  decide

example :
    recordedOffsets lakesinkStream ("p3a-star-out", 0)
      [Except.ok { topic := "p3a-star-out", partition := 0, offset := 5,
                   payload := some (Except.ok "x") },
       Except.ok { topic := "p3a-star-out", partition := 1, offset := 2,
                   payload := none },
       Except.ok { topic := "p3a-star-out", partition := 0, offset := 9,
                   payload := some (Except.ok "y") }] = [6, 10] := by decide

/-! ## Trace predicates -/

/-- The blob passed to `lake.store`: the batch joined by the newline
separator (src/lakesink.rs:26). -/
def batchBlob (b : List String) : String := String.intercalate "\n" b

/-- Every commit call logged in a trace covers exactly the records that
were already part of a successful store call at the moment the commit was
issued. -/
def commitsCoverStored (tr : List LakeCall) : Prop :=
  ∀ cov st ok, LakeCall.commit cov st ok ∈ tr → cov = st

/-- Every store call logged in a trace was handed a non-empty batch. -/
def storesNonempty (tr : List LakeCall) : Prop :=
  ∀ b blob ok, LakeCall.store b blob ok ∈ tr → b ≠ []

/-! ## Characterization of `store_batch` -/

theorem store_batch_storeFail (env : LakeEnv) (s : SinkState)
    (h : env.storeOk s.nStores = false) :
    store_batch env s =
      ({ s with nStores := s.nStores + 1,
                trace := s.trace ++ [LakeCall.store s.batch (batchBlob s.batch) false] },
       false) := by
  simp [store_batch, batchBlob, h]

theorem store_batch_ok (env : LakeEnv) (s : SinkState)
    (h1 : env.storeOk s.nStores = true) (h2 : env.commitOk s.nCommits = true) :
    store_batch env s =
      ({ s with nStores := s.nStores + 1, nCommits := s.nCommits + 1,
                stored := s.stored ++ s.batch, flushed := s.flushed + 1,
                trace := s.trace ++
                  [LakeCall.store s.batch (batchBlob s.batch) true,
                   LakeCall.commit s.consumed (s.stored ++ s.batch) true] },
       true) := by
  simp [store_batch, batchBlob, h1, h2]

theorem store_batch_commitFail (env : LakeEnv) (s : SinkState)
    (h1 : env.storeOk s.nStores = true) (h2 : env.commitOk s.nCommits = false) :
    store_batch env s =
      ({ s with nStores := s.nStores + 1, nCommits := s.nCommits + 1,
                stored := s.stored ++ s.batch,
                trace := s.trace ++
                  [LakeCall.store s.batch (batchBlob s.batch) true,
                   LakeCall.commit s.consumed (s.stored ++ s.batch) false] },
       false) := by
  simp [store_batch, batchBlob, h1, h2]

/-! ## Store-before-commit -/

theorem commitsCoverStored_append_store {tr : List LakeCall}
    {b : List String} {blob : String} {o1 : Bool}
    (h : commitsCoverStored tr) :
    commitsCoverStored (tr ++ [LakeCall.store b blob o1]) := by
  intro cov1 st1 ok1 hmem
  rcases List.mem_append.mp hmem with hin | hin
  · exact h cov1 st1 ok1 hin
  · simp at hin

theorem commitsCoverStored_append_flush {tr : List LakeCall}
    {b : List String} {blob : String} {o1 o2 : Bool} {cov st : List String}
    (h : commitsCoverStored tr) (heq : cov = st) :
    commitsCoverStored
      (tr ++ [LakeCall.store b blob o1, LakeCall.commit cov st o2]) := by
  intro cov1 st1 ok1 hmem
  rcases List.mem_append.mp hmem with hin | hin
  · exact h cov1 st1 ok1 hin
  · simp only [List.mem_cons, List.not_mem_nil, or_false] at hin
    rcases hin with hin | hin
    · exact absurd hin (by simp)
    · rcases LakeCall.commit.inj hin with ⟨e1, e2, _⟩
      rw [e1, e2, heq]

/-- The threshold-flush helper preserves the bookkeeping invariant
"every consumed record is stored or still buffered" (as long as the loop
keeps running) and the trace property "commits cover exactly the stored
records". -/
theorem flushIfFull_inv (env : LakeEnv) (bs : Nat) (t : SinkState)
    (h1 : t.consumed = t.stored ++ t.batch) (h2 : commitsCoverStored t.trace) :
    commitsCoverStored (flushIfFull env bs t).1.trace ∧
      ((flushIfFull env bs t).2 = SinkStatus.running →
        (flushIfFull env bs t).1.consumed =
          (flushIfFull env bs t).1.stored ++ (flushIfFull env bs t).1.batch) := by
  by_cases hlen : t.batch.length ≥ bs
  · cases hst : env.storeOk t.nStores with
    | false =>
      simp only [flushIfFull, hlen, if_true, store_batch_storeFail env t hst]
      exact ⟨commitsCoverStored_append_store h2, by simp⟩
    | true =>
      cases hco : env.commitOk t.nCommits with
      | false =>
        simp only [flushIfFull, hlen, if_true, store_batch_commitFail env t hst hco]
        exact ⟨commitsCoverStored_append_flush h2 h1, by simp⟩
      | true =>
        simp only [flushIfFull, hlen, if_true, store_batch_ok env t hst hco]
        refine ⟨commitsCoverStored_append_flush h2 h1, fun _ => ?_⟩
        simp [h1]
  · simp only [flushIfFull, hlen, if_false]
    exact ⟨h2, fun _ => h1⟩

/-- The drain helper preserves the trace property and never continues the
loop. -/
theorem drainOnCancel_inv (env : LakeEnv) (t : SinkState)
    (h1 : t.consumed = t.stored ++ t.batch) (h2 : commitsCoverStored t.trace) :
    commitsCoverStored (drainOnCancel env t).1.trace ∧
      (drainOnCancel env t).2 ≠ SinkStatus.running := by
  by_cases hemp : t.batch.isEmpty
  · simp only [drainOnCancel, hemp, if_true]
    exact ⟨h2, by simp⟩
  · cases hst : env.storeOk t.nStores with
    | false =>
      simp only [drainOnCancel, hemp, if_false, store_batch_storeFail env t hst]
      exact ⟨commitsCoverStored_append_store h2, by simp⟩
    | true =>
      cases hco : env.commitOk t.nCommits with
      | false =>
        simp only [drainOnCancel, hemp, if_false, store_batch_commitFail env t hst hco]
        exact ⟨commitsCoverStored_append_flush h2 h1, by simp⟩
      | true =>
        simp only [drainOnCancel, hemp, if_false, store_batch_ok env t hst hco]
        exact ⟨commitsCoverStored_append_flush h2 h1, by simp⟩

/-- One sink-loop iteration preserves both invariant parts. -/
theorem sinkStep_inv (env : LakeEnv) (bs : Nat) (s : SinkState) (e : LoopEvent)
    (h1 : s.consumed = s.stored ++ s.batch) (h2 : commitsCoverStored s.trace) :
    commitsCoverStored (sinkStep env bs s e).1.trace ∧
      ((sinkStep env bs s e).2 = SinkStatus.running →
        (sinkStep env bs s e).1.consumed =
          (sinkStep env bs s e).1.stored ++ (sinkStep env bs s e).1.batch) := by
  cases e with
  | recv res =>
    cases res with
    | error u =>
      exact ⟨by simpa [sinkStep] using h2, by intro h; simp [sinkStep] at h⟩
    | ok record =>
      have h1s : (pushRecord s record).consumed =
          (pushRecord s record).stored ++ (pushRecord s record).batch := by
        simp only [pushRecord]
        rw [h1, List.append_assoc]
      exact flushIfFull_inv env bs (pushRecord s record) h1s h2
  | cancel =>
    have h := drainOnCancel_inv env s h1 h2
    exact ⟨h.1, fun hr => absurd hr h.2⟩

/-- The trace property is preserved along any whole run of the loop. -/
theorem sinkRun_inv (env : LakeEnv) (bs : Nat) (events : List LoopEvent) :
    ∀ s : SinkState, s.consumed = s.stored ++ s.batch →
      commitsCoverStored s.trace →
      commitsCoverStored (sinkRun env bs events s).1.trace := by
  induction events with
  | nil => intro s _ h2; simpa [sinkRun] using h2
  | cons e rest ih =>
    intro s h1 h2
    have hstep := sinkStep_inv env bs s e h1 h2
    by_cases hr : (sinkStep env bs s e).2 = SinkStatus.running
    · rw [show sinkRun env bs (e :: rest) s =
          sinkRun env bs rest (sinkStep env bs s e).1 from by
        simp [sinkRun, hr]]
      exact ih (sinkStep env bs s e).1 (hstep.2 hr) hstep.1
    · rw [show sinkRun env bs (e :: rest) s = sinkStep env bs s e from by
        simp [sinkRun, hr]]
      exact hstep.1

/-! ## Further structural lemmas about the sink loop -/

/-- `store_batch` makes exactly one `store` call. -/
theorem store_batch_nStores (env : LakeEnv) (t : SinkState) :
    (store_batch env t).1.nStores = t.nStores + 1 := by
  cases hst : env.storeOk t.nStores with
  | false => rw [store_batch_storeFail env t hst]
  | true =>
    cases hco : env.commitOk t.nCommits with
    | false => rw [store_batch_commitFail env t hst hco]
    | true => rw [store_batch_ok env t hst hco]

/-- `store_batch` leaves the batch argument untouched. -/
theorem store_batch_batch (env : LakeEnv) (t : SinkState) :
    (store_batch env t).1.batch = t.batch := by
  cases hst : env.storeOk t.nStores with
  | false => rw [store_batch_storeFail env t hst]
  | true =>
    cases hco : env.commitOk t.nCommits with
    | false => rw [store_batch_commitFail env t hst hco]
    | true => rw [store_batch_ok env t hst hco]

theorem storesNonempty_append {t1 t2 : List LakeCall}
    (h1 : storesNonempty t1) (h2 : storesNonempty t2) :
    storesNonempty (t1 ++ t2) := by
  intro b blob ok hmem
  rcases List.mem_append.mp hmem with h | h
  · exact h1 b blob ok h
  · exact h2 b blob ok h

/-- The store call of `store_batch` carries the batch of the state it
was called with. -/
theorem store_batch_storesNonempty (env : LakeEnv) (t : SinkState)
    (hb : t.batch ≠ []) (h : storesNonempty t.trace) :
    storesNonempty (store_batch env t).1.trace := by
  cases hst : env.storeOk t.nStores with
  | false =>
    rw [store_batch_storeFail env t hst]
    refine storesNonempty_append h ?_
    intro b blob ok hmem
    simp only [List.mem_singleton] at hmem
    rcases LakeCall.store.inj hmem with ⟨e1, _, _⟩
    rw [e1]; exact hb
  | true =>
    cases hco : env.commitOk t.nCommits with
    | false =>
      rw [store_batch_commitFail env t hst hco]
      refine storesNonempty_append h ?_
      intro b blob ok hmem
      simp only [List.mem_cons, List.not_mem_nil, or_false] at hmem
      rcases hmem with hmem | hmem
      · rcases LakeCall.store.inj hmem with ⟨e1, _, _⟩
        rw [e1]; exact hb
      · exact absurd hmem (by simp)
    | true =>
      rw [store_batch_ok env t hst hco]
      refine storesNonempty_append h ?_
      intro b blob ok hmem
      simp only [List.mem_cons, List.not_mem_nil, or_false] at hmem
      rcases hmem with hmem | hmem
      · rcases LakeCall.store.inj hmem with ⟨e1, _, _⟩
        rw [e1]; exact hb
      · exact absurd hmem (by simp)

/-- Every store call the loop ever makes is handed a non-empty batch. -/
theorem sinkStep_storesNonempty (env : LakeEnv) (bs : Nat) (s : SinkState)
    (e : LoopEvent) (h : storesNonempty s.trace) :
    storesNonempty (sinkStep env bs s e).1.trace := by
  cases e with
  | recv res =>
    cases res with
    | error u => simpa [sinkStep] using h
    | ok record =>
      show storesNonempty (flushIfFull env bs (pushRecord s record)).1.trace
      rw [flushIfFull]
      by_cases hlen : (pushRecord s record).batch.length ≥ bs
      · simp only [hlen, if_true]
        have hne := store_batch_storesNonempty env (pushRecord s record)
          (by simp [pushRecord]) (by simpa [pushRecord] using h)
        by_cases hr : (store_batch env (pushRecord s record)).2 = true
        · simpa [hr] using hne
        · simp only [Bool.not_eq_true] at hr
          simpa [hr] using hne
      · rw [if_neg hlen]
        simpa [pushRecord] using h
  | cancel =>
    show storesNonempty (drainOnCancel env s).1.trace
    rw [drainOnCancel]
    by_cases hemp : s.batch.isEmpty
    · simpa [hemp] using h
    · simp only [hemp, if_false]
      have hne := store_batch_storesNonempty env s
        (by simpa using hemp) h
      by_cases hr : (store_batch env s).2 = true
      · simpa [hr] using hne
      · simp only [Bool.not_eq_true] at hr
        simpa [hr] using hne

theorem sinkRun_storesNonempty (env : LakeEnv) (bs : Nat)
    (events : List LoopEvent) :
    ∀ s : SinkState, storesNonempty s.trace →
      storesNonempty (sinkRun env bs events s).1.trace := by
  induction events with
  | nil => intro s h; simpa [sinkRun] using h
  | cons e rest ih =>
    intro s h
    have hstep := sinkStep_storesNonempty env bs s e h
    by_cases hr : (sinkStep env bs s e).2 = SinkStatus.running
    · rw [show sinkRun env bs (e :: rest) s =
          sinkRun env bs rest (sinkStep env bs s e).1 from by
        simp [sinkRun, hr]]
      exact ih (sinkStep env bs s e).1 hstep
    · rw [show sinkRun env bs (e :: rest) s = sinkStep env bs s e from by
        simp [sinkRun, hr]]
      exact hstep

/-- Once the loop has broken or errored, no later select resolution is
processed: the run over an extended schedule is the run that already
terminated. -/
theorem sinkRun_stop (env : LakeEnv) (bs : Nat) (events : List LoopEvent) :
    ∀ (s : SinkState) (more : List LoopEvent),
      (sinkRun env bs events s).2 ≠ SinkStatus.running →
      sinkRun env bs (events ++ more) s = sinkRun env bs events s := by
  induction events with
  | nil => intro s more h; exact absurd rfl h
  | cons e rest ih =>
    intro s more h
    by_cases hr : (sinkStep env bs s e).2 = SinkStatus.running
    · rw [show sinkRun env bs (e :: rest) s =
          sinkRun env bs rest (sinkStep env bs s e).1 from by
          simp [sinkRun, hr]] at h ⊢
      rw [show sinkRun env bs ((e :: rest) ++ more) s =
          sinkRun env bs (rest ++ more) (sinkStep env bs s e).1 from by
          simp [sinkRun, hr]]
      exact ih (sinkStep env bs s e).1 more h
    · rw [show sinkRun env bs (e :: rest) s = sinkStep env bs s e from by
        simp [sinkRun, hr]]
      rw [show sinkRun env bs ((e :: rest) ++ more) s = sinkStep env bs s e from by
        simp [sinkRun, hr]]

/-- Batch-length bound for the threshold helper. -/
theorem flushIfFull_bound (env : LakeEnv) (bs : Nat) (t : SinkState)
    (h : t.batch.length ≤ bs) :
    (flushIfFull env bs t).1.batch.length ≤ bs ∧
      ((flushIfFull env bs t).2 = SinkStatus.running → 0 < bs →
        (flushIfFull env bs t).1.batch.length < bs) := by
  rw [flushIfFull]
  by_cases hlen : t.batch.length ≥ bs
  · simp only [hlen, if_true]
    by_cases hr : (store_batch env t).2 = true
    · simp only [hr, if_true]
      exact ⟨Nat.zero_le bs, fun _ hpos => by simpa using hpos⟩
    · simp only [Bool.not_eq_true] at hr
      simp only [hr, Bool.false_eq_true, if_false]
      rw [store_batch_batch env t]
      exact ⟨h, by simp⟩
  · simp only [hlen, if_false]
    exact ⟨h, fun _ _ => Nat.lt_of_not_le hlen⟩

/-- The drain arm leaves the batch vector untouched and always ends the
loop. -/
theorem drainOnCancel_batch (env : LakeEnv) (s : SinkState) :
    (drainOnCancel env s).1.batch = s.batch ∧
      (drainOnCancel env s).2 ≠ SinkStatus.running := by
  by_cases hemp : s.batch.isEmpty
  · simp only [drainOnCancel, hemp, if_true]
    exact ⟨trivial, by simp⟩
  · by_cases hr : (store_batch env s).2 = true
    · simp only [drainOnCancel, hemp, if_false, hr, if_true]
      exact ⟨store_batch_batch env s, by simp⟩
    · simp only [Bool.not_eq_true] at hr
      simp only [drainOnCancel, hemp, if_false, hr, Bool.false_eq_true, if_false]
      exact ⟨store_batch_batch env s, by simp⟩

/-- Batch-length bound for one whole loop iteration. -/
theorem sinkStep_bound (env : LakeEnv) (bs : Nat) (s : SinkState)
    (e : LoopEvent) (h : s.batch.length < bs) :
    (sinkStep env bs s e).1.batch.length ≤ bs ∧
      ((sinkStep env bs s e).2 = SinkStatus.running → 0 < bs →
        (sinkStep env bs s e).1.batch.length < bs) := by
  cases e with
  | recv res =>
    cases res with
    | error u =>
      refine ⟨?_, ?_⟩
      · show s.batch.length ≤ bs
        exact Nat.le_of_lt h
      · intro hcon
        exact SinkStatus.noConfusion hcon
    | ok record =>
      have hb : (pushRecord s record).batch.length ≤ bs := by
        simp [pushRecord]; omega
      exact flushIfFull_bound env bs (pushRecord s record) hb
  | cancel =>
    have hd := drainOnCancel_batch env s
    refine ⟨?_, fun hcon => absurd hcon hd.2⟩
    show (drainOnCancel env s).1.batch.length ≤ bs
    rw [hd.1]
    exact Nat.le_of_lt h

/-- Batch-length bound along any whole run. -/
theorem sinkRun_bound (env : LakeEnv) (bs : Nat) (events : List LoopEvent)
    (hbs : 0 < bs) :
    ∀ s : SinkState, s.batch.length < bs →
      (sinkRun env bs events s).1.batch.length ≤ bs ∧
        ((sinkRun env bs events s).2 = SinkStatus.running →
          (sinkRun env bs events s).1.batch.length < bs) := by
  induction events with
  | nil =>
    intro s h
    exact ⟨by simpa [sinkRun] using Nat.le_of_lt h, fun _ => by simpa [sinkRun] using h⟩
  | cons e rest ih =>
    intro s h
    have hstep := sinkStep_bound env bs s e h
    by_cases hr : (sinkStep env bs s e).2 = SinkStatus.running
    · rw [show sinkRun env bs (e :: rest) s =
          sinkRun env bs rest (sinkStep env bs s e).1 from by
        simp [sinkRun, hr]]
      exact ih (sinkStep env bs s e).1 (hstep.2 hr hbs)
    · rw [show sinkRun env bs (e :: rest) s = sinkStep env bs s e from by
        simp [sinkRun, hr]]
      exact ⟨hstep.1, fun hcon => absurd hcon hr⟩

/-! ## Claim theorems for the sink loop -/

/-- Claim C1: Store-before-commit. In every execution of the sink loop,
every `commit_last_consume` call in the trace covers exactly the records
already included in successful `store` calls at that moment (so no
covered record lacks a previously successful store of its payload); and
`store_batch` never reaches the commit step when the preceding store
failed — it logs only the failed store call and returns the error. -/
theorem lakesink_store_before_commit (env : LakeEnv) (bs : Nat)
    (events : List LoopEvent) :
    (∀ cov st ok,
        LakeCall.commit cov st ok ∈ (runSink env bs events).1.trace → cov = st)
    ∧ ∀ t : SinkState, env.storeOk t.nStores = false →
        (store_batch env t).1.trace =
            t.trace ++ [LakeCall.store t.batch (batchBlob t.batch) false]
          ∧ (store_batch env t).2 = false := by
  constructor
  · intro cov st ok hmem
    exact sinkRun_inv env bs events initSinkState rfl
      (fun c v o hm => absurd hm (List.not_mem_nil _)) cov st ok hmem
  · intro t ht
    rw [store_batch_storeFail env t ht]
    exact ⟨rfl, rfl⟩

/-- Witness for the store-before-commit theorem at concrete inputs: the
commit issued by a run with batch size 2 over records "a", "b" covers
exactly the stored records, and a failing store on the empty initial
state logs no commit and fails. -/
theorem lakesink_store_before_commit_witness :
    ((["a", "b"] : List String) = ["a", "b"])
    ∧ ((store_batch envStoreFail initSinkState).1.trace =
          initSinkState.trace ++
            [LakeCall.store initSinkState.batch (batchBlob initSinkState.batch) false]
        ∧ (store_batch envStoreFail initSinkState).2 = false) :=
  ⟨(lakesink_store_before_commit envAllOk 2
      [LoopEvent.recv (Except.ok "a"), LoopEvent.recv (Except.ok "b")]).1
      ["a", "b"] ["a", "b"] true (by decide),
   (lakesink_store_before_commit envStoreFail 2 []).2 initSinkState rfl⟩

/-- Claim C2: No loss on graceful shutdown. When cancellation is observed
with an empty batch the sink exits immediately, with no store and no
commit call; with a non-empty batch, either the drain stores exactly the
buffered records and then successfully commits (covering them) and the
sink breaks out with success, or the sink errors out and no successful
commit call is added for them; and no run ever makes a store call with an
empty batch. -/
theorem lakesink_no_loss_on_shutdown (env : LakeEnv) (s : SinkState)
    (bs : Nat) (events : List LoopEvent) :
    (s.batch = [] → drainOnCancel env s = (s, SinkStatus.done))
    ∧ (s.batch ≠ [] →
        ((drainOnCancel env s).2 = SinkStatus.done
            ∧ (drainOnCancel env s).1.stored = s.stored ++ s.batch
            ∧ (drainOnCancel env s).1.trace =
                s.trace ++
                  [LakeCall.store s.batch (batchBlob s.batch) true,
                   LakeCall.commit s.consumed (s.stored ++ s.batch) true])
          ∨ ((drainOnCancel env s).2 = SinkStatus.errored
              ∧ ∀ cov st,
                  LakeCall.commit cov st true ∈ (drainOnCancel env s).1.trace →
                  LakeCall.commit cov st true ∈ s.trace))
    ∧ (∀ b blob ok,
        LakeCall.store b blob ok ∈ (runSink env bs events).1.trace → b ≠ []) := by
  refine ⟨?_, ?_, ?_⟩
  · intro hb
    have hemp : s.batch.isEmpty = true := by simp [hb]
    simp [drainOnCancel, hemp]
  · intro hb
    have hemp : ¬ (s.batch.isEmpty = true) := by simpa using hb
    cases hst : env.storeOk s.nStores with
    | false =>
      right
      simp only [drainOnCancel, hemp, if_false, store_batch_storeFail env s hst,
        Bool.false_eq_true]
      refine ⟨by trivial, ?_⟩
      intro cov st hmem
      rcases List.mem_append.mp hmem with hin | hin
      · exact hin
      · exfalso; simp at hin
    | true =>
      cases hco : env.commitOk s.nCommits with
      | true =>
        left
        simp only [drainOnCancel, hemp, if_false, store_batch_ok env s hst hco,
          if_true]
        exact ⟨by trivial, by trivial, by trivial⟩
      | false =>
        right
        simp only [drainOnCancel, hemp, if_false,
          store_batch_commitFail env s hst hco, Bool.false_eq_true]
        refine ⟨by trivial, ?_⟩
        intro cov st hmem
        rcases List.mem_append.mp hmem with hin | hin
        · exact hin
        · exfalso; simp at hin
  · intro b blob ok hmem
    exact sinkRun_storesNonempty env bs events initSinkState
      (fun x y o hm => absurd hm (List.not_mem_nil _)) b blob ok hmem

/-- Witness for the shutdown theorem at concrete inputs: an empty batch
exits untouched; draining the single buffered record "d" stores and
commits it; and the store call made by a run with batch size 1 had a
non-empty batch. -/
theorem lakesink_no_loss_on_shutdown_witness :
    (drainOnCancel envAllOk initSinkState = (initSinkState, SinkStatus.done))
    ∧ (((drainOnCancel envAllOk singleBatchState).2 = SinkStatus.done
          ∧ (drainOnCancel envAllOk singleBatchState).1.stored =
              singleBatchState.stored ++ singleBatchState.batch
          ∧ (drainOnCancel envAllOk singleBatchState).1.trace =
              singleBatchState.trace ++
                [LakeCall.store singleBatchState.batch
                   (batchBlob singleBatchState.batch) true,
                 LakeCall.commit singleBatchState.consumed
                   (singleBatchState.stored ++ singleBatchState.batch) true])
        ∨ ((drainOnCancel envAllOk singleBatchState).2 = SinkStatus.errored
          ∧ ∀ cov st,
              LakeCall.commit cov st true ∈
                  (drainOnCancel envAllOk singleBatchState).1.trace →
                LakeCall.commit cov st true ∈ singleBatchState.trace))
    ∧ ((["a"] : List String) ≠ []) :=
  ⟨(lakesink_no_loss_on_shutdown envAllOk initSinkState 1 []).1 rfl,
   (lakesink_no_loss_on_shutdown envAllOk singleBatchState 1 []).2.1 (by decide),
   (lakesink_no_loss_on_shutdown envAllOk initSinkState 1
      [LoopEvent.recv (Except.ok "a")]).2.2 ["a"] (batchBlob ["a"]) true (by decide)⟩

/-- Claim C3: Batch boundary. For a positive batch size, the batch never
exceeds `bs` elements (and stays strictly below `bs` whenever the loop is
still running); a received record triggers a flush attempt (exactly one
additional store call) precisely when the batch length reaches `bs` with
this push, never earlier; and a successful threshold flush clears the
batch back to empty. -/
theorem lakesink_batch_boundary (env : LakeEnv) (bs : Nat) (hbs : 0 < bs) :
    (∀ events : List LoopEvent,
        (runSink env bs events).1.batch.length ≤ bs
          ∧ ((runSink env bs events).2 = SinkStatus.running →
              (runSink env bs events).1.batch.length < bs))
    ∧ (∀ (s : SinkState) (record : String), s.batch.length < bs →
        (sinkStep env bs s (LoopEvent.recv (Except.ok record))).1.nStores =
          if s.batch.length + 1 = bs then s.nStores + 1 else s.nStores)
    ∧ (∀ t : SinkState, t.batch.length ≥ bs →
        (flushIfFull env bs t).2 = SinkStatus.running →
        (flushIfFull env bs t).1.batch = []) := by
  refine ⟨?_, ?_, ?_⟩
  · intro events
    exact sinkRun_bound env bs events hbs initSinkState (by simpa using hbs)
  · intro s record h
    show (flushIfFull env bs (pushRecord s record)).1.nStores = _
    by_cases heq : s.batch.length + 1 = bs
    · have hlen : (pushRecord s record).batch.length ≥ bs := by
        simp [pushRecord]; omega
      rw [if_pos heq]
      by_cases hr : (store_batch env (pushRecord s record)).2 = true
      · simp only [flushIfFull, hlen, if_true, hr]
        rw [show ({ (store_batch env (pushRecord s record)).1 with batch := [] } :
            SinkState).nStores = (store_batch env (pushRecord s record)).1.nStores
          from rfl]
        rw [store_batch_nStores]
        rfl
      · simp only [Bool.not_eq_true] at hr
        simp only [flushIfFull, hlen, if_true, hr, Bool.false_eq_true, if_false]
        rw [store_batch_nStores]
        rfl
    · have hlen : ¬ ((pushRecord s record).batch.length ≥ bs) := by
        simp [pushRecord]; omega
      rw [flushIfFull, if_neg hlen, if_neg heq]
      rfl
  · intro t hlen hrun
    by_cases hr : (store_batch env t).2 = true
    · simp only [flushIfFull, hlen, if_true, hr]
    · simp only [Bool.not_eq_true] at hr
      simp only [flushIfFull, hlen, if_true, hr, Bool.false_eq_true,
        if_false] at hrun
      exact absurd hrun (by simp)

/-- Witness for the batch-boundary theorem at batch size 3: the one-record
run stays within bound, the first push does not flush, and a full batch of
three flushed successfully comes back empty. -/
theorem lakesink_batch_boundary_witness :
    ((runSink envAllOk 3 [LoopEvent.recv (Except.ok "a")]).1.batch.length ≤ 3
      ∧ ((runSink envAllOk 3 [LoopEvent.recv (Except.ok "a")]).2 =
            SinkStatus.running →
          (runSink envAllOk 3 [LoopEvent.recv (Except.ok "a")]).1.batch.length < 3))
    ∧ ((sinkStep envAllOk 3 initSinkState
          (LoopEvent.recv (Except.ok "a"))).1.nStores =
        if initSinkState.batch.length + 1 = 3
        then initSinkState.nStores + 1 else initSinkState.nStores)
    ∧ ((flushIfFull envAllOk 3 fullBatchState).1.batch = []) :=
  ⟨(lakesink_batch_boundary envAllOk 3 (by decide)).1
      [LoopEvent.recv (Except.ok "a")],
   (lakesink_batch_boundary envAllOk 3 (by decide)).2.1 initSinkState "a"
      (by decide),
   (lakesink_batch_boundary envAllOk 3 (by decide)).2.2 fullBatchState
      (by decide) (by decide)⟩

/-- Claim C4: Store-failure atomicity. A failed store logs no commit call
and returns the error; a failed `store_batch` makes the threshold path
and the drain path end the loop with an error (propagated, not retried);
a consume error likewise errors the loop with the state untouched; and a
terminated run processes no further select resolutions (no in-process
retry: the task has returned). -/
theorem lakesink_store_failure_atomicity (env : LakeEnv) (bs : Nat) :
    (∀ t : SinkState, env.storeOk t.nStores = false →
        (store_batch env t).1.trace =
            t.trace ++ [LakeCall.store t.batch (batchBlob t.batch) false]
          ∧ (store_batch env t).2 = false)
    ∧ (∀ t : SinkState, t.batch.length ≥ bs → (store_batch env t).2 = false →
        (flushIfFull env bs t).2 = SinkStatus.errored)
    ∧ (∀ t : SinkState, t.batch ≠ [] → (store_batch env t).2 = false →
        (drainOnCancel env t).2 = SinkStatus.errored)
    ∧ (∀ (s : SinkState) (u : Unit),
        sinkStep env bs s (LoopEvent.recv (Except.error u)) =
          (s, SinkStatus.errored))
    ∧ (∀ (events more : List LoopEvent) (s : SinkState),
        (sinkRun env bs events s).2 ≠ SinkStatus.running →
        sinkRun env bs (events ++ more) s = sinkRun env bs events s) := by
  refine ⟨?_, ?_, ?_, ?_, ?_⟩
  · intro t ht
    rw [store_batch_storeFail env t ht]
    exact ⟨rfl, rfl⟩
  · intro t hlen hr
    simp only [flushIfFull, hlen, if_true, hr, Bool.false_eq_true, if_false]
  · intro t hb hr
    have hemp : ¬ (t.batch.isEmpty = true) := by simpa using hb
    simp only [drainOnCancel, hemp, if_false, hr, Bool.false_eq_true]
  · intro s u
    rfl
  · exact fun events more s h => sinkRun_stop env bs events s more h

/-- Witness for the store-failure theorem in the all-stores-fail
environment: the failing flush on the single record "a" errors on every
path, the consume error errors in place, and the run stops at the first
error. -/
theorem lakesink_store_failure_atomicity_witness :
    ((store_batch envStoreFail initSinkState).1.trace =
        initSinkState.trace ++
          [LakeCall.store initSinkState.batch (batchBlob initSinkState.batch) false]
      ∧ (store_batch envStoreFail initSinkState).2 = false)
    ∧ ((flushIfFull envStoreFail 1 aBatchState).2 = SinkStatus.errored)
    ∧ ((drainOnCancel envStoreFail aBatchState).2 = SinkStatus.errored)
    ∧ (sinkStep envStoreFail 1 initSinkState
          (LoopEvent.recv (Except.error ())) = (initSinkState, SinkStatus.errored))
    ∧ (sinkRun envStoreFail 1
          ([LoopEvent.recv (Except.error ())] ++ [LoopEvent.cancel]) initSinkState =
        sinkRun envStoreFail 1 [LoopEvent.recv (Except.error ())] initSinkState) :=
  ⟨(lakesink_store_failure_atomicity envStoreFail 1).1 initSinkState rfl,
   (lakesink_store_failure_atomicity envStoreFail 1).2.1 aBatchState
      (by decide) (by decide),
   (lakesink_store_failure_atomicity envStoreFail 1).2.2.1 aBatchState
      (by decide) (by decide),
   (lakesink_store_failure_atomicity envStoreFail 1).2.2.2.1 initSinkState (),
   (lakesink_store_failure_atomicity envStoreFail 1).2.2.2.2
      [LoopEvent.recv (Except.error ())] [LoopEvent.cancel] initSinkState (by decide)⟩

/-- Claim C5: Flush content and post-state. `store_batch` stores exactly
one blob — the batch joined in consumption order by single newline
separators — and then (only when the store succeeded) issues the commit;
in particular the batch ["a", "b", "c"] yields the blob "a\nb\nc"; and
after a successful threshold flush the batch is empty. -/
theorem lakesink_flush_content (env : LakeEnv) (t : SinkState) :
    ((store_batch env t).1.trace =
        if env.storeOk t.nStores then
          t.trace ++
            [LakeCall.store t.batch (batchBlob t.batch) true,
             LakeCall.commit t.consumed (t.stored ++ t.batch)
               (env.commitOk t.nCommits)]
        else
          t.trace ++ [LakeCall.store t.batch (batchBlob t.batch) false])
    ∧ (batchBlob ["a", "b", "c"] = "a\nb\nc")
    ∧ (∀ bs : Nat, t.batch.length ≥ bs →
        (flushIfFull env bs t).2 = SinkStatus.running →
        (flushIfFull env bs t).1.batch = []) := by
  refine ⟨?_, by decide, ?_⟩
  · cases hst : env.storeOk t.nStores with
    | false => rw [store_batch_storeFail env t hst]; simp
    | true =>
      cases hco : env.commitOk t.nCommits with
      | false => rw [store_batch_commitFail env t hst hco]; simp [hco]
      | true => rw [store_batch_ok env t hst hco]; simp [hco]
  · intro bs hlen hrun
    by_cases hr : (store_batch env t).2 = true
    · simp only [flushIfFull, hlen, if_true, hr]
    · simp only [Bool.not_eq_true] at hr
      simp only [flushIfFull, hlen, if_true, hr, Bool.false_eq_true,
        if_false] at hrun
      exact absurd hrun (by simp)

/-- Witness for the flush-content theorem: flushing the full batch
["a", "b", "c"] stores the blob "a\nb\nc", commits, and clears the
batch. -/
theorem lakesink_flush_content_witness :
    ((store_batch envAllOk fullBatchState).1.trace =
      if envAllOk.storeOk fullBatchState.nStores then
        fullBatchState.trace ++
          [LakeCall.store fullBatchState.batch (batchBlob fullBatchState.batch) true,
           LakeCall.commit fullBatchState.consumed
             (fullBatchState.stored ++ fullBatchState.batch)
             (envAllOk.commitOk fullBatchState.nCommits)]
      else
        fullBatchState.trace ++
          [LakeCall.store fullBatchState.batch
            (batchBlob fullBatchState.batch) false])
    ∧ (batchBlob ["a", "b", "c"] = "a\nb\nc")
    ∧ ((flushIfFull envAllOk 3 fullBatchState).1.batch = []) :=
  ⟨(lakesink_flush_content envAllOk fullBatchState).1,
   (lakesink_flush_content envAllOk initSinkState).2.1,
   (lakesink_flush_content envAllOk fullBatchState).2.2 3
      (by decide) (by decide)⟩

/-! ## Lemmas about the offset tracker -/

theorem tplLookup_append (k : PartitionKey) (l1 l2 : Tpl) :
    tplLookup k (l1 ++ l2) =
      match tplLookup k l1 with
      | some v => some v
      | none => tplLookup k l2 := by
  induction l1 with
  | nil => simp [tplLookup]
  | cons e rest ih =>
    by_cases he : e.1 = k
    · simp [tplLookup, he]
    · simp [tplLookup, he, ih]

theorem tplLookup_of_any_false (k : PartitionKey) (tpl : Tpl)
    (h : tpl.any (fun e => e.1 = k) = false) : tplLookup k tpl = none := by
  induction tpl with
  | nil => rfl
  | cons e rest ih =>
    simp only [List.any_cons, Bool.or_eq_false_iff] at h
    have he : ¬ (e.1 = k) := by simpa using h.1
    simp [tplLookup, he, ih h.2]

theorem tplLookup_set (k : PartitionKey) (off : Int) (tpl : Tpl)
    (h : tpl.any (fun e => e.1 = k) = true) :
    tplLookup k (tpl.map fun e => if e.1 = k then (e.1, off) else e) =
      some off := by
  induction tpl with
  | nil => simp at h
  | cons e rest ih =>
    by_cases he : e.1 = k
    · simp [tplLookup, he]
    · simp only [List.any_cons, Bool.or_eq_true] at h
      rcases h with h | h
      · exact absurd (by simpa using h) he
      · simp [tplLookup, he, ih h]

theorem tplLookup_set_other (k j : PartitionKey) (off : Int) (tpl : Tpl)
    (hk : k ≠ j) :
    tplLookup k (tpl.map fun e => if e.1 = j then (e.1, off) else e) =
      tplLookup k tpl := by
  induction tpl with
  | nil => rfl
  | cons e rest ih =>
    have hjk : ¬ (j = k) := fun hh => hk hh.symm
    by_cases he : e.1 = j
    · have hek : ¬ (e.1 = k) := by rw [he]; exact hjk
      simp [tplLookup, he, hek, hjk, ih]
    · by_cases hek : e.1 = k
      · simp [tplLookup, he, hek, hk, hjk, ih]
      · simp [tplLookup, he, hek, ih]

/-- The tracker update records the new offset for its partition key. -/
theorem tplLookup_addPartitionOffset_self (tpl : Tpl) (t : String) (p : Int)
    (off : Int) :
    tplLookup (t, p) (addPartitionOffset tpl t p off) = some off := by
  rw [addPartitionOffset]
  by_cases h : tpl.any (fun e => e.1 = (t, p)) = true
  · rw [if_pos h]
    exact tplLookup_set (t, p) off tpl h
  · have h2 : tpl.any (fun e => e.1 = (t, p)) = false := by
      cases hx : tpl.any (fun e => e.1 = (t, p)) with
      | false => rfl
      | true => exact absurd hx h
    rw [if_neg h]
    rw [tplLookup_append, tplLookup_of_any_false (t, p) tpl h2]
    simp [tplLookup]

/-- The tracker update leaves every other partition key unchanged. -/
theorem tplLookup_addPartitionOffset_other (tpl : Tpl) (t : String) (p : Int)
    (off : Int) (k : PartitionKey) (hk : k ≠ (t, p)) :
    tplLookup k (addPartitionOffset tpl t p off) = tplLookup k tpl := by
  rw [addPartitionOffset]
  by_cases h : tpl.any (fun e => e.1 = (t, p)) = true
  · rw [if_pos h]
    exact tplLookup_set_other k (t, p) off tpl hk
  · rw [if_neg h, tplLookup_append]
    have hk2 : ¬ ((t, p) = k) := fun hh => hk hh.symm
    cases hv : tplLookup k tpl with
    | some v => rfl
    | none => simp [tplLookup, hk2]

/-- The tracker update never removes an entry. -/
theorem tplLookup_addPartitionOffset_isSome (tpl : Tpl) (t : String) (p : Int)
    (off : Int) (k : PartitionKey)
    (h : (tplLookup k tpl).isSome = true) :
    (tplLookup k (addPartitionOffset tpl t p off)).isSome = true := by
  by_cases hk : k = (t, p)
  · rw [hk, tplLookup_addPartitionOffset_self]
    rfl
  · rw [tplLookup_addPartitionOffset_other tpl t p off k hk]
    exact h

/-! ## Equations for `consumeRun` and `deliveredOffsets` -/

theorem deliveredOffsets_cons_error (k : PartitionKey) (u : Unit)
    (rest : List (Except Unit KafkaMessageM)) :
    deliveredOffsets k (Except.error u :: rest) = deliveredOffsets k rest := by
  simp [deliveredOffsets, List.filterMap_cons]

theorem deliveredOffsets_cons_ok (k : PartitionKey) (msg : KafkaMessageM)
    (rest : List (Except Unit KafkaMessageM)) :
    deliveredOffsets k (Except.ok msg :: rest) =
      if (msg.topic, msg.partition) = k
      then msg.offset :: deliveredOffsets k rest
      else deliveredOffsets k rest := by
  by_cases hk : (msg.topic, msg.partition) = k <;>
    simp [deliveredOffsets, List.filterMap_cons, hk]

theorem consumeRun_cons_error (s : KafkaRecordStreamM) (u : Unit)
    (rest : List (Except Unit KafkaMessageM)) :
    consumeRun s (Except.error u :: rest) = consumeRun s rest := by
  cases hcons : s.consumer <;> simp [consumeRun, consume, hcons]

theorem consumeRun_cons_disabled (s : KafkaRecordStreamM)
    (msg : KafkaMessageM) (rest : List (Except Unit KafkaMessageM))
    (h : s.consumer = none) :
    consumeRun s (Except.ok msg :: rest) = consumeRun s rest := by
  simp [consumeRun, consume, h]

theorem consumeRun_cons_deser (s : KafkaRecordStreamM) (msg : KafkaMessageM)
    (rest : List (Except Unit KafkaMessageM)) (e : Unit)
    (hcons : s.consumer = some ())
    (hp : msg.payload = some (Except.error e)) :
    consumeRun s (Except.ok msg :: rest) = consumeRun s rest := by
  simp [consumeRun, consume, hcons, hp]

theorem consumeRun_cons_text (s : KafkaRecordStreamM) (msg : KafkaMessageM)
    (rest : List (Except Unit KafkaMessageM)) (txt : String)
    (hcons : s.consumer = some ())
    (hp : msg.payload = some (Except.ok txt)) :
    consumeRun s (Except.ok msg :: rest) =
      ((consumeRun
          { s with tpl := addPartitionOffset s.tpl msg.topic msg.partition
                            (msg.offset + 1) } rest).1,
       ((msg.topic, msg.partition), msg.offset + 1) ::
         (consumeRun
           { s with tpl := addPartitionOffset s.tpl msg.topic msg.partition
                             (msg.offset + 1) } rest).2) := by
  simp [consumeRun, consume, hcons, hp]

theorem consumeRun_cons_nopayload (s : KafkaRecordStreamM)
    (msg : KafkaMessageM) (rest : List (Except Unit KafkaMessageM))
    (hcons : s.consumer = some ()) (hp : msg.payload = none) :
    consumeRun s (Except.ok msg :: rest) =
      ((consumeRun
          { s with tpl := addPartitionOffset s.tpl msg.topic msg.partition
                            (msg.offset + 1) } rest).1,
       ((msg.topic, msg.partition), msg.offset + 1) ::
         (consumeRun
           { s with tpl := addPartitionOffset s.tpl msg.topic msg.partition
                             (msg.offset + 1) } rest).2) := by
  simp [consumeRun, consume, hcons, hp]

/-! ## Run-level lemmas for the Kafka stream -/

theorem filter_map_cons_key (w : PartitionKey × Int)
    (l : List (PartitionKey × Int)) (k : PartitionKey) :
    ((w :: l).filter (fun x => x.1 = k)).map (fun x => x.2) =
      if w.1 = k
      then w.2 :: (l.filter (fun x => x.1 = k)).map (fun x => x.2)
      else (l.filter (fun x => x.1 = k)).map (fun x => x.2) := by
  by_cases h : w.1 = k <;> simp [List.filter_cons, h]

/-- The offsets recorded for a partition key along a run of consumes form
a sublist of the successor-shifted offsets the backend delivered for that
key. -/
theorem recordedOffsets_sublist (k : PartitionKey) :
    ∀ (ms : List (Except Unit KafkaMessageM)) (s : KafkaRecordStreamM),
      List.Sublist (recordedOffsets s k ms)
        ((deliveredOffsets k ms).map (fun o => o + 1)) := by
  intro ms
  induction ms with
  | nil =>
    intro s
    simp [recordedOffsets, consumeRun, deliveredOffsets]
  | cons m rest ih =>
    intro s
    show List.Sublist
      (((consumeRun s (m :: rest)).2.filter (fun w => w.1 = k)).map
        (fun w => w.2)) _
    cases m with
    | error u =>
      rw [consumeRun_cons_error, deliveredOffsets_cons_error]
      exact ih s
    | ok msg =>
      cases hcons : s.consumer with
      | none =>
        rw [consumeRun_cons_disabled s msg rest hcons,
          deliveredOffsets_cons_ok]
        by_cases hk : (msg.topic, msg.partition) = k
        · rw [if_pos hk, List.map_cons]
          exact List.Sublist.cons _ (ih s)
        · rw [if_neg hk]
          exact ih s
      | some u =>
        cases u
        cases hp : msg.payload with
        | none =>
          rw [consumeRun_cons_nopayload s msg rest hcons hp,
            deliveredOffsets_cons_ok, filter_map_cons_key]
          by_cases hk : (msg.topic, msg.partition) = k
          · rw [if_pos (show (((msg.topic, msg.partition), msg.offset + 1) :
                PartitionKey × Int).1 = k from hk), if_pos hk, List.map_cons]
            exact List.Sublist.cons₂ _ (ih _)
          · rw [if_neg (show ¬ ((((msg.topic, msg.partition), msg.offset + 1) :
                PartitionKey × Int).1 = k) from hk), if_neg hk]
            exact ih _
        | some res =>
          cases res with
          | error e =>
            rw [consumeRun_cons_deser s msg rest e hcons hp,
              deliveredOffsets_cons_ok]
            by_cases hk : (msg.topic, msg.partition) = k
            · rw [if_pos hk, List.map_cons]
              exact List.Sublist.cons _ (ih s)
            · rw [if_neg hk]
              exact ih s
          | ok txt =>
            rw [consumeRun_cons_text s msg rest txt hcons hp,
              deliveredOffsets_cons_ok, filter_map_cons_key]
            by_cases hk : (msg.topic, msg.partition) = k
            · rw [if_pos (show (((msg.topic, msg.partition), msg.offset + 1) :
                  PartitionKey × Int).1 = k from hk), if_pos hk, List.map_cons]
              exact List.Sublist.cons₂ _ (ih _)
            · rw [if_neg (show ¬ ((((msg.topic, msg.partition), msg.offset + 1) :
                  PartitionKey × Int).1 = k) from hk), if_neg hk]
              exact ih _

/-- A key present in the tracker stays present along any run of
consumes. -/
theorem consumeRun_tpl_isSome (k : PartitionKey) :
    ∀ (ms : List (Except Unit KafkaMessageM)) (s : KafkaRecordStreamM),
      (tplLookup k s.tpl).isSome = true →
      (tplLookup k (consumeRun s ms).1.tpl).isSome = true := by
  intro ms
  induction ms with
  | nil => intro s h; simpa [consumeRun] using h
  | cons m rest ih =>
    intro s h
    cases m with
    | error u =>
      rw [consumeRun_cons_error]
      exact ih s h
    | ok msg =>
      cases hcons : s.consumer with
      | none =>
        rw [consumeRun_cons_disabled s msg rest hcons]
        exact ih s h
      | some u =>
        cases u
        cases hp : msg.payload with
        | none =>
          rw [consumeRun_cons_nopayload s msg rest hcons hp]
          exact ih _ (tplLookup_addPartitionOffset_isSome s.tpl msg.topic
            msg.partition (msg.offset + 1) k h)
        | some res =>
          cases res with
          | error e =>
            rw [consumeRun_cons_deser s msg rest e hcons hp]
            exact ih s h
          | ok txt =>
            rw [consumeRun_cons_text s msg rest txt hcons hp]
            exact ih _ (tplLookup_addPartitionOffset_isSome s.tpl msg.topic
              msg.partition (msg.offset + 1) k h)

/-- Every key that was ever written during a run has an entry in the final
tracker. -/
theorem consumeRun_writes_tracked (k : PartitionKey) :
    ∀ (ms : List (Except Unit KafkaMessageM)) (s : KafkaRecordStreamM)
      (v : Int),
      (k, v) ∈ (consumeRun s ms).2 →
      (tplLookup k (consumeRun s ms).1.tpl).isSome = true := by
  intro ms
  induction ms with
  | nil => intro s v h; simp [consumeRun] at h
  | cons m rest ih =>
    intro s v h
    cases m with
    | error u =>
      rw [consumeRun_cons_error] at h ⊢
      exact ih s v h
    | ok msg =>
      cases hcons : s.consumer with
      | none =>
        rw [consumeRun_cons_disabled s msg rest hcons] at h ⊢
        exact ih s v h
      | some u =>
        cases u
        cases hp : msg.payload with
        | none =>
          rw [consumeRun_cons_nopayload s msg rest hcons hp] at h ⊢
          rcases List.mem_cons.mp h with hh | hh
          · have hk : k = (msg.topic, msg.partition) := congrArg Prod.fst hh
            refine consumeRun_tpl_isSome k rest _ ?_
            show (tplLookup k (addPartitionOffset s.tpl msg.topic msg.partition
              (msg.offset + 1))).isSome = true
            rw [hk, tplLookup_addPartitionOffset_self]
            rfl
          · exact ih _ v hh
        | some res =>
          cases res with
          | error e =>
            rw [consumeRun_cons_deser s msg rest e hcons hp] at h ⊢
            exact ih s v h
          | ok txt =>
            rw [consumeRun_cons_text s msg rest txt hcons hp] at h ⊢
            rcases List.mem_cons.mp h with hh | hh
            · have hk : k = (msg.topic, msg.partition) := congrArg Prod.fst hh
              refine consumeRun_tpl_isSome k rest _ ?_
              show (tplLookup k (addPartitionOffset s.tpl msg.topic msg.partition
                (msg.offset + 1))).isSome = true
              rw [hk, tplLookup_addPartitionOffset_self]
              rfl
            · exact ih _ v hh

/-! ## Claim theorems for the Kafka record stream and the configuration -/

/-- Claim C6: Consume postcondition. With the consuming capability
enabled, a successfully received message makes `consume` record
(topic, partition, offset + 1) in the offset tracker — replacing any
prior entry for that partition and leaving all other partitions
unchanged — and return the payload decoded as text, the empty string
when the payload is absent, and a terminal `DeserializeError` (not a
silent skip) when the payload is not decodable. The scoped exclusive
lock on the tracker is rendered by the exclusive state passing of the
embedding. -/
theorem kafka_consume_postcondition (s : KafkaRecordStreamM)
    (hc : s.consumer = some ()) (msg : KafkaMessageM) :
    (∀ txt, msg.payload = some (Except.ok txt) →
        consume s (Except.ok msg) =
          some (Except.ok
            ({ s with tpl := addPartitionOffset s.tpl msg.topic msg.partition
                              (msg.offset + 1) }, txt)))
    ∧ (msg.payload = none →
        consume s (Except.ok msg) =
          some (Except.ok
            ({ s with tpl := addPartitionOffset s.tpl msg.topic msg.partition
                              (msg.offset + 1) }, "")))
    ∧ (∀ e : Unit, msg.payload = some (Except.error e) →
        consume s (Except.ok msg) =
          some (Except.error ConsumeError.deserializeError))
    ∧ (tplLookup (msg.topic, msg.partition)
        (addPartitionOffset s.tpl msg.topic msg.partition (msg.offset + 1)) =
          some (msg.offset + 1))
    ∧ (∀ k : PartitionKey, k ≠ (msg.topic, msg.partition) →
        tplLookup k (addPartitionOffset s.tpl msg.topic msg.partition
          (msg.offset + 1)) = tplLookup k s.tpl) := by
  refine ⟨?_, ?_, ?_, ?_, ?_⟩
  · intro txt hp
    simp [consume, hc, hp]
  · intro hp
    simp [consume, hc, hp]
  · intro e hp
    simp [consume, hc, hp]
  · exact tplLookup_addPartitionOffset_self s.tpl msg.topic msg.partition
      (msg.offset + 1)
  · intro k hk
    exact tplLookup_addPartitionOffset_other s.tpl msg.topic msg.partition
      (msg.offset + 1) k hk

/-- Witness for the consume-postcondition theorem on the lakesink stream
and concrete messages: a decodable payload is returned with the tracker
write, an undecodable one is a terminal error, and the written entry is
retrievable. -/
theorem kafka_consume_postcondition_witness :
    (consume lakesinkStream (Except.ok msgText) =
        some (Except.ok
          ({ lakesinkStream with
              tpl := addPartitionOffset lakesinkStream.tpl msgText.topic
                       msgText.partition (msgText.offset + 1) }, "r")))
    ∧ (consume lakesinkStream (Except.ok msgBadPayload) =
        some (Except.error ConsumeError.deserializeError))
    ∧ (tplLookup (msgText.topic, msgText.partition)
        (addPartitionOffset lakesinkStream.tpl msgText.topic msgText.partition
          (msgText.offset + 1)) = some (msgText.offset + 1)) :=
  ⟨(kafka_consume_postcondition lakesinkStream rfl msgText).1 "r" rfl,
   (kafka_consume_postcondition lakesinkStream rfl msgBadPayload).2.2.1 () rfl,
   (kafka_consume_postcondition lakesinkStream rfl msgText).2.2.2.1⟩

/-- Claim C7: Offset monotonicity. For a fixed partition key, if the
backend delivers that partition's messages with strictly increasing
offsets, then the offsets successively recorded in the tracker for it
along any run of consumes are strictly increasing. -/
theorem kafka_offset_monotonicity (s : KafkaRecordStreamM)
    (k : PartitionKey) (ms : List (Except Unit KafkaMessageM))
    (h : (deliveredOffsets k ms).Pairwise (· < ·)) :
    (recordedOffsets s k ms).Pairwise (· < ·) := by
  have hsub := recordedOffsets_sublist k ms s
  have hmap : ((deliveredOffsets k ms).map (fun o => o + 1)).Pairwise
      (· < ·) :=
    List.Pairwise.map (fun o => o + 1)
      (fun a b hab => by show a + 1 < b + 1; omega) h
  exact List.Pairwise.sublist hsub hmap

/-- Witness for the offset-monotonicity theorem: two deliveries on
partition ("p3a-star-out", 0) at offsets 41 and 50 record strictly
increasing offsets. -/
theorem kafka_offset_monotonicity_witness :
    (recordedOffsets lakesinkStream ("p3a-star-out", 0)
      [Except.ok msgText, Except.ok msgTextLater]).Pairwise (· < ·) :=
  kafka_offset_monotonicity lakesinkStream ("p3a-star-out", 0)
    [Except.ok msgText, Except.ok msgTextLater] (by decide)

/-- Claim C9: Commit leaves the tracker unchanged. With the consuming
capability enabled, `commit_last_consume` returns the stream unmodified
(the tracker is only read under the lock, never cleared or reset) and
submits exactly the whole tracked list to the backend, on success and on
failure alike; and the tracker holds an entry for every partition key the
instance ever consumed from (initial entries are preserved and every
write leaves a retrievable entry), so each subsequent commit re-submits
the latest recorded offset for all of them. -/
theorem kafka_commit_frame (s : KafkaRecordStreamM)
    (hc : s.consumer = some ()) (backendOk : Bool) :
    (commit_last_consume s backendOk =
        some (s, s.tpl, if backendOk then Except.ok () else Except.error ()))
    ∧ (∀ (ms : List (Except Unit KafkaMessageM)) (k : PartitionKey),
        ((tplLookup k s.tpl).isSome = true
            ∨ ∃ v : Int, (k, v) ∈ (consumeRun s ms).2) →
          (tplLookup k (consumeRun s ms).1.tpl).isSome = true) := by
  constructor
  · cases backendOk <;> simp [commit_last_consume, hc]
  · intro ms k h
    rcases h with h | ⟨v, h⟩
    · exact consumeRun_tpl_isSome k ms s h
    · exact consumeRun_writes_tracked k ms s v h

/-- Witness for the commit-frame theorem: committing on the lakesink
stream returns it unchanged with its whole tracker submitted, and the
partition consumed via `msgText` has an entry afterwards. -/
theorem kafka_commit_frame_witness :
    (commit_last_consume lakesinkStream true =
        some (lakesinkStream, lakesinkStream.tpl,
          if true then Except.ok () else Except.error ()))
    ∧ (tplLookup ("p3a-star-out", 0)
        (consumeRun lakesinkStream [Except.ok msgText]).1.tpl).isSome = true :=
  ⟨(kafka_commit_frame lakesinkStream rfl true).1,
   (kafka_commit_frame lakesinkStream rfl true).2 [Except.ok msgText]
      ("p3a-star-out", 0) (Or.inr ⟨42, by decide⟩)⟩

/-- Claim C10: Capability misuse panics. Calling `produce` on a stream
constructed without the producing capability, or `consume` /
`commit_last_consume` on one constructed without the consuming
capability, hits the `expect` panic (modelled as `none`) instead of
returning a `RecordStreamError`; and whenever the matching handle is
present — as construction guarantees when the capability flag was set —
the panic branch is unreachable (the call always returns a value). -/
theorem kafka_capability_panics :
    (∀ (eo ee : Option String) (ec uo sendOk : Bool),
        produce (KafkaRecordStreamNew eo ee false ec uo) sendOk = none)
    ∧ (∀ (eo ee : Option String) (ep uo : Bool)
          (m : Except Unit KafkaMessageM),
        consume (KafkaRecordStreamNew eo ee ep false uo) m = none)
    ∧ (∀ (eo ee : Option String) (ep uo b : Bool),
        commit_last_consume (KafkaRecordStreamNew eo ee ep false uo) b = none)
    ∧ (∀ (s : KafkaRecordStreamM) (sendOk : Bool),
        s.producer.isSome = true → (produce s sendOk).isSome = true)
    ∧ (∀ s : KafkaRecordStreamM, s.consumer.isSome = true →
        (∀ m, (consume s m).isSome = true)
          ∧ ∀ b, (commit_last_consume s b).isSome = true)
    ∧ (∀ (eo ee : Option String) (ec uo : Bool),
        (KafkaRecordStreamNew eo ee true ec uo).producer = some ())
    ∧ (∀ (eo ee : Option String) (ep uo : Bool),
        (KafkaRecordStreamNew eo ee ep true uo).consumer = some ()) := by
  refine ⟨?_, ?_, ?_, ?_, ?_, ?_, ?_⟩
  · intro eo ee ec uo sendOk
    simp [produce, KafkaRecordStreamNew]
  · intro eo ee ep uo m
    simp [consume, KafkaRecordStreamNew]
  · intro eo ee ep uo b
    simp [commit_last_consume, KafkaRecordStreamNew]
  · intro s sendOk h
    cases hp : s.producer with
    | none => rw [hp] at h; simp at h
    | some u => simp [produce, hp]
  · intro s h
    cases hp : s.consumer with
    | none => rw [hp] at h; simp at h
    | some u =>
      cases u
      constructor
      · intro m
        cases m with
        | error e => simp [consume, hp]
        | ok msg =>
          cases hpay : msg.payload with
          | none => simp [consume, hp, hpay]
          | some res =>
            cases res with
            | error e => simp [consume, hp, hpay]
            | ok txt => simp [consume, hp, hpay]
      · intro b
        simp [commit_last_consume, hp]
  · intro eo ee ec uo
    simp [KafkaRecordStreamNew]
  · intro eo ee ep uo
    simp [KafkaRecordStreamNew]

/-- Witness for the capability theorem: the three disabled-capability
calls panic on concretely constructed streams, and the enabled consumer
of the lakesink stream never hits the panic branch. -/
theorem kafka_capability_panics_witness :
    (produce (KafkaRecordStreamNew none none false true true) true = none)
    ∧ (consume (KafkaRecordStreamNew none none true false true)
        (Except.ok msgText) = none)
    ∧ (commit_last_consume (KafkaRecordStreamNew none none true false true)
        true = none)
    ∧ ((consume lakesinkStream (Except.ok msgText)).isSome = true)
    ∧ ((commit_last_consume lakesinkStream true).isSome = true) :=
  ⟨kafka_capability_panics.1 none none false true true,
   kafka_capability_panics.2.1 none none true true (Except.ok msgText),
   kafka_capability_panics.2.2.1 none none true true true,
   (kafka_capability_panics.2.2.2.2.1 lakesinkStream (by decide)).1
      (Except.ok msgText),
   (kafka_capability_panics.2.2.2.2.1 lakesinkStream (by decide)).2 true⟩

/-- Claim C8, behaviour at the failing input: the batch-size tunable
defaults to 1000 when unset and a non-numeric value fails the startup
parse (the panic aborts before any stream, lake or batch exists), but
the value "0" — not a positive integer, contradicting the code's own
panic message `LAKE_SINK_BATCH_SIZE must be a positive integer` — is
accepted by `usize::from_str`, so startup proceeds with batch size 0
instead of failing. -/
theorem batchSizeConfig_zero_accepted :
    batchSizeConfig (some "0") = some 0
      ∧ batchSizeConfig none = some 1000
      ∧ batchSizeConfig (some "10x") = none := by
  exact ⟨by decide, by decide, by decide⟩

end NSP
